import Mathlib

/-!
Verification of the Aln-NodeJs feeder-coordination core.

The development shallowly embeds `src/database-coordinator.js`: each MySQL
table becomes a Lean list of row structures, and each coordinator method
becomes a state-transition function on a `DB` record.  Timestamps and
time-of-day values are modelled as natural numbers (the JavaScript code
passes them through opaquely); byte buffers are lists of naturals below 256.
Fallible operations return their error through an `Option String` component,
modelling the `throw err` / `reject(err)` paths of the callbacks, and the
possible failure points of a database call are made explicit through a
failure-oracle argument, so that a single Lean function covers every branch
of the callback chain.
-/

deriving instance DecidableEq for Except

namespace Aln

/-- A row of the `feeders` table: `id` (auto increment), the firmware
`identifier`, the nullable `owner` user id, the `ip` column (a plain string;
`registerFeeder` writes the reported address into it verbatim), the nullable
`last_responded` timestamp, the user-assigned `name` and the remembered
`default_value`. -/
structure FeederRow where
  id : Nat
  identifier : String
  owner : Option Nat
  ip : String
  lastResponded : Option Nat
  name : Option String
  defaultValue : Option Nat
  deriving DecidableEq, Repr

/-- A row of the `plannings` table: auto-increment `id`, the owning feeder id
(NULL when the `SELECT id FROM feeders WHERE identifier = ?` subquery found no
feeder) and the creation `date`, which acts as the version marker. -/
structure PlanningRow where
  id : Nat
  feeder : Option Nat
  date : Nat
  deriving DecidableEq, Repr

/-- A row of the `meals` table.  The table is used for two kinds of rows:
schedule meals inserted by `recordPlanning` (`planning`, `time`, `quantity`,
`enabled` set, `feeder`/`date` NULL) and fed-meal telemetry inserted by
`recordMeal` (`feeder`, `date`, `time`, `quantity` set, `planning`/`enabled`
NULL). -/
structure MealRow where
  planning : Option Nat
  feeder : Option Nat
  date : Option Nat
  time : Nat
  quantity : Nat
  enabled : Option Bool
  deriving DecidableEq, Repr

/-- A row of the `alerts` table (the JSON payload is kept opaque). -/
structure AlertRow where
  feeder : Option Nat
  type : String
  date : Nat
  data : String
  deriving DecidableEq, Repr

/-- A row of the `unknown_data` quarantine table. -/
structure UnknownRow where
  date : Nat
  type : String
  ip : String
  data : List Nat
  deriving DecidableEq, Repr

/-- A row of the `users` table (only the columns the coordinator writes). -/
structure UserRow where
  id : Nat
  email : String
  password : String
  login : Option Nat
  deriving DecidableEq, Repr

/-- Modelled from the spec: the `Meal` model object (`src/models/meal.js` is
not among the sources).  One scheduled feeding event: time-of-day, quantity
and the enabled flag, stored as passed. -/
structure Meal where
  time : Nat
  quantity : Nat
  enabled : Bool
  deriving DecidableEq, Repr

/-- Modelled from the spec: the `Planning` model object
(`src/models/planning.js` is not among the sources).  A planning is the
ordered list of its meals. -/
structure Planning where
  meals : List Meal
  deriving DecidableEq, Repr

/-- Modelled from the spec: `Planning.prototype.mealsCount`, the number of
meals of the planning. -/
def Planning.mealsCount (pl : Planning) : Nat := pl.meals.length

/-- Modelled from the spec: `Planning.prototype.sqled(insertId)`, the bulk
rows for `INSERT INTO meals(planning, time, quantity, enabled) VALUES ?`,
one row per meal in the planning order. -/
def sqled (pid : Nat) (pl : Planning) : List MealRow :=
  pl.meals.map (fun m => ⟨some pid, none, none, m.time, m.quantity, some m.enabled⟩)

/-- The whole durable store reachable through the coordinator, together with
the `isConnected` readiness flag of `DataBaseCoordinator`. -/
structure DB where
  ready : Bool
  feeders : List FeederRow
  nextFeederId : Nat
  users : List UserRow
  nextUserId : Nat
  plannings : List PlanningRow
  nextPlanningId : Nat
  meals : List MealRow
  alerts : List AlertRow
  unknownData : List UnknownRow
  deriving DecidableEq, Repr

/-- A connected coordinator over empty tables. -/
def initDB : DB :=
  { ready := true, feeders := [], nextFeederId := 1, users := [], nextUserId := 1,
    plannings := [], nextPlanningId := 1, meals := [], alerts := [], unknownData := [] }

/-- The store `initDB` with the readiness flag still down (`isConnected === false`). -/
def notReadyDB : DB := { initDB with ready := false }

/-! ### SQL helpers -/

/-- Number of rows of a table matched by a `WHERE` predicate; this is the
`affectedRows` reported for the `UPDATE` statements of the coordinator (each
matched row is changed: the updates write a fresh timestamp or a value into a
previously NULL column). -/
def matchedCount {α : Type} (p : α → Bool) : List α → Nat
  | [] => 0
  | r :: rs => (if p r then 1 else 0) + matchedCount p rs

/-- An `UPDATE` over a table: rewrite every row matched by `p` with `f`. -/
def updateRows {α : Type} (p : α → Bool) (f : α → α) (l : List α) : List α :=
  l.map (fun r => if p r then f r else r)

/-- Whether `needle` is an initial segment of `hay`. -/
def startsList : List Char → List Char → Bool
  | [], _ => true
  | x :: xs, hay =>
    match hay with
    | [] => false
    | y :: ys => (x == y) && startsList xs ys

/-- Whether `needle` occurs contiguously inside `hay`; this is the meaning of
the SQL pattern `LIKE '%needle%'` for a pattern without wildcard characters
(IP addresses contain none). -/
def occursIn (needle : List Char) : List Char → Bool
  | [] => startsList needle []
  | c :: rest => startsList needle (c :: rest) || occursIn needle rest

/-- The `ip LIKE '%:claimantIP:%'` test of `claimFeeder`: the stored `ip`
column must contain `:claimantIP:` as a substring. -/
def claimLike (stored ip : String) : Bool :=
  occursIn ((":" ++ ip ++ ":").toList) stored.toList

/-- The `WHERE owner IS NULL AND identifier = ? AND ip LIKE ?` clause of
`claimFeeder`. -/
def claimPred (ident ip : String) (r : FeederRow) : Bool :=
  decide (r.owner = none) && decide (r.identifier = ident) && claimLike r.ip ip

/-! ### Device registry operations (`database-coordinator.js`) -/

/-- The method `registerFeeder(identifier, ip)`: try
`UPDATE feeders SET last_responded = ?, ip = ? WHERE identifier = ?`; when no
row was affected, `INSERT INTO feeders(identifier, last_responded, ip)`.
This is the spec's `checkIn`. -/
def registerFeeder (ident ip : String) (now : Nat) (db : DB) : DB :=
  let p := fun r : FeederRow => decide (r.identifier = ident)
  let updated := updateRows p (fun r => { r with lastResponded := some now, ip := ip }) db.feeders
  if 1 ≤ matchedCount p db.feeders then
    { db with feeders := updated }
  else
    { db with
        feeders := updated ++ [⟨db.nextFeederId, ident, none, ip, some now, none, none⟩],
        nextFeederId := db.nextFeederId + 1 }

/-- The `SET owner = ?` assignment of `claimFeeder`. -/
def setOwner (uid : Nat) (r : FeederRow) : FeederRow := { r with owner := some uid }

/-- The method `claimFeeder(identifier, user_id, ip)`:
`UPDATE feeders SET owner = ? WHERE owner IS NULL AND identifier = ? AND ip
LIKE '%:ip:%'`, resolving `affectedRows >= 1`. -/
def claimFeeder (ident : String) (uid : Nat) (ip : String) (db : DB) : DB × Bool :=
  ({ db with feeders := updateRows (claimPred ident ip) (setOwner uid) db.feeders },
    decide (1 ≤ matchedCount (claimPred ident ip) db.feeders))

/-- The method `checkFeederAssociation(feeder_id, user_id)`:
`SELECT * FROM feeders WHERE owner = ? AND id = ?`, resolving the first row
or `undefined`. -/
def checkFeederAssociation (fid uid : Nat) (db : DB) : Option FeederRow :=
  (db.feeders.filter (fun r => decide (r.owner = some uid) && decide (r.id = fid))).head?

/-- The method `setFeederName(id, name)`: `UPDATE feeders SET name = ? WHERE id = ?`,
resolving `affectedRows >= 1`. -/
def setFeederName (fid : Nat) (name : String) (db : DB) : DB × Bool :=
  let p := fun r : FeederRow => decide (r.id = fid)
  ({ db with feeders := updateRows p (fun r => { r with name := some name }) db.feeders },
    decide (1 ≤ matchedCount p db.feeders))

/-- The method `rememberDefaultAmount(identifier, quantity)`: a silent no-op when the
store is not ready, otherwise `UPDATE feeders SET default_value = ? WHERE
identifier = ?`; when the update errors the callback re-throws the error
(`if (err) { throw err; }`), modelled by the `updateFails` oracle and the
returned `Option String`. -/
def rememberDefaultAmount (ident : String) (amount : Nat) (updateFails : Bool)
    (db : DB) : DB × Option String :=
  if db.ready = false then (db, none)
  else if updateFails then (db, some "default_value update failed")
  else
    let p := fun r : FeederRow => decide (r.identifier = ident)
    ({ db with feeders := updateRows p (fun r => { r with defaultValue := some amount }) db.feeders },
      none)

/-- The `(SELECT id FROM feeders WHERE identifier = ?)` scalar subquery:
NULL when no feeder row matches. -/
def lookupFeederId (ident : String) (db : DB) : Option Nat :=
  (db.feeders.find? (fun r => decide (r.identifier = ident))).map (fun r => r.id)

/-! ### Schedule synchronizer -/

/-- One comparison step of `ORDER BY p.date DESC LIMIT 1`: keep the row with
the larger date.  SQL leaves the relative order of rows with equal dates
unspecified; the embedding breaks such ties toward the larger (more recently
inserted) id, and the theorems about the latest planning only rely on the
fresh row having a strictly larger date. -/
def betterRow (a b : PlanningRow) : PlanningRow :=
  if decide (a.date < b.date) || (decide (a.date = b.date) && decide (a.id < b.id)) then b else a

/-- The query `SELECT p.id FROM plannings p WHERE p.feeder = ? ORDER BY p.date DESC
LIMIT 1` applied to an already-filtered row list. -/
def chooseLatest : List PlanningRow → Option PlanningRow
  | [] => none
  | r :: rs => some (rs.foldl betterRow r)

/-- The `Meal` object rebuilt from a meals-table row by `getCurrentPlanning`
(`new Meal(row.time, row.quantity, row.enabled)`).  Rows selected by a
planning id always carry an `enabled` value, since only `recordPlanning`
inserts rows with a non-NULL `planning` column. -/
def toMeal (r : MealRow) : Meal :=
  ⟨r.time, r.quantity, match r.enabled with | some b => b | none => false⟩

/-- The method `getCurrentPlanning(id, callback)`: throws `'Database is not ready'` when
the readiness flag is down, otherwise selects the meals of the planning with
the latest date for the feeder (`WHERE planning = NULL` matches no row, so an
absent planning yields the empty meal list) and hands the rebuilt `Planning`
to the callback.  The meal query carries no `ORDER BY`: rows come back in
table (insertion) order. -/
def getCurrentPlanning (fid : Nat) (db : DB) : Except String (List Meal) :=
  if db.ready = false then .error "Database is not ready"
  else
    match chooseLatest (db.plannings.filter (fun p => decide (p.feeder = some fid))) with
    | none => .ok []
    | some p => .ok ((db.meals.filter (fun m => decide (m.planning = some p.id))).map toMeal)

/-- Which step of the `recordPlanning` transaction fails, if any: the
`beginTransaction` call, the planning header `INSERT`, the meals bulk
`INSERT`, or the `commit`. -/
inductive TxFail where
  | ok
  | atBegin
  | atHeader
  | atMeals
  | atCommit
  deriving DecidableEq, Repr

/-- The method `recordPlanning(identifier, planning)`: a silent no-op when the store is
not ready; otherwise, inside a transaction, insert the planning header row,
then — unless `planning.mealsCount() === 0`, in which case it commits right
away — bulk-insert the meals under the header's `insertId`, and commit.
Every failing step rolls the transaction back (the staged rows are
discarded, leaving the store as it was) and re-throws the error. -/
def recordPlanning (ident : String) (pl : Planning) (now : Nat) (fl : TxFail)
    (db : DB) : DB × Option String :=
  if db.ready = false then (db, none)
  else if fl = TxFail.atBegin then (db, some "begin transaction failed")
  else if fl = TxFail.atHeader then (db, some "planning insert failed")
  else
    let insertId := db.nextPlanningId
    let staged : DB :=
      { db with
          plannings := db.plannings ++ [⟨insertId, lookupFeederId ident db, now⟩],
          nextPlanningId := db.nextPlanningId + 1 }
    if decide (pl.mealsCount = 0) then
      if fl = TxFail.atCommit then (db, some "commit failed") else (staged, none)
    else
      if fl = TxFail.atMeals then (db, some "meals insert failed")
      else if fl = TxFail.atCommit then (db, some "commit failed")
      else ({ staged with meals := staged.meals ++ sqled insertId pl }, none)

/-- The fully committed store after a successful `recordPlanning`: the new
header row and all of the planning's meals (none for an empty planning). -/
def applyPlanning (ident : String) (pl : Planning) (now : Nat) (db : DB) : DB :=
  { db with
      plannings := db.plannings ++ [⟨db.nextPlanningId, lookupFeederId ident db, now⟩],
      nextPlanningId := db.nextPlanningId + 1,
      meals := db.meals ++ sqled db.nextPlanningId pl }

/-! ### Telemetry & quarantine -/

/-- The method `recordMeal(identifier, quantity)`: a silent no-op when the store is not
ready, otherwise
`INSERT INTO meals(feeder, date, time, quantity) VALUES ((SELECT id FROM
feeders WHERE identifier = ?), ?, ?, ?)`. -/
def recordMeal (ident : String) (dateN timeN quantity : Nat) (db : DB) : DB :=
  if db.ready = false then db
  else
    { db with
        meals := db.meals ++ [⟨none, lookupFeederId ident db, some dateN, timeN, quantity, none⟩] }

/-- The method `logAlert(identifier, type, data)`: a silent no-op when the store is not
ready, otherwise an append to `alerts` with the JSON-serialized payload. -/
def logAlert (ident ty : String) (now : Nat) (payload : String) (db : DB) : DB :=
  if db.ready = false then db
  else { db with alerts := db.alerts ++ [⟨lookupFeederId ident db, ty, now, payload⟩] }

/-- One lowercase hex digit, as produced by `Buffer.toString('hex')`:
digit values 0-9 map to the ASCII digits, 10-15 to the letters a-f. -/
def hexChar (n : Nat) : Char :=
  if n < 10 then Char.ofNat (48 + n) else Char.ofNat (87 + n)

/-- The dump `data.toString('hex')`: each byte becomes two lowercase hex digits. -/
def hexOf : List Nat → List Char
  | [] => []
  | b :: rest => hexChar (b / 16) :: hexChar (b % 16) :: hexOf rest

/-- The hex dump the noise regex `/^9da114414c$/` is matched against.  The
anchored regex without the multiline flag matches exactly the whole string. -/
def noiseHex : List Char := ['9', 'd', 'a', '1', '1', '4', '4', '1', '4', 'c']

/-- The five noise bytes `0x9d 0xa1 0x14 0x41 0x4c`. -/
def noiseBytes : List Nat := [0x9d, 0xa1, 0x14, 0x41, 0x4c]

/-- The method `logUnknownData(type, data, ip)`: a silent no-op when the store is not
ready; a payload whose hex dump fully matches `/^9da114414c$/` is silently
dropped; any other payload is appended to `unknown_data` with the date, the
type tag cut by `type.substring(0, 64)`, the source ip and the raw bytes. -/
def logUnknownData (ty : String) (data : List Nat) (ip : String) (now : Nat) (db : DB) : DB :=
  if db.ready = false then db
  else if decide (hexOf data = noiseHex) then db
  else { db with unknownData := db.unknownData ++ [⟨now, ty.take 64, ip, data⟩] }

/-! ### User-table operations -/

/-- The method `createUser`: `INSERT INTO users (email, password)`. -/
def createUser (email hash : String) (db : DB) : DB :=
  { db with users := db.users ++ [⟨db.nextUserId, email, hash, none⟩],
            nextUserId := db.nextUserId + 1 }

/-- The method `loggedUser(user_id)`: `UPDATE users SET login = CURRENT_TIMESTAMP WHERE
id = ?`. -/
def loggedUser (uid now : Nat) (db : DB) : DB :=
  let p := fun u : UserRow => decide (u.id = uid)
  { db with users := updateRows p (fun u => { u with login := some now }) db.users }

/-- The method `updateUser(user)`: `UPDATE users SET email = ?, password = ? WHERE
id = ?`. -/
def updateUser (uid : Nat) (email pass : String) (db : DB) : DB :=
  let p := fun u : UserRow => decide (u.id = uid)
  { db with users := updateRows p (fun u => { u with email := email, password := pass }) db.users }

/-! ### Operation sequences

Every state-mutating operation of `DataBaseCoordinator`, as one step of a
request-per-operation interleaving; oracle arguments (timestamps, failure
points) travel with the operation. -/

inductive Op where
  | checkIn (ident ip : String) (now : Nat)
  | claim (ident : String) (uid : Nat) (ip : String)
  | setName (fid : Nat) (name : String)
  | rememberDefault (ident : String) (amount : Nat) (updateFails : Bool)
  | mealFed (ident : String) (dateN timeN quantity : Nat)
  | alert (ident ty : String) (now : Nat) (payload : String)
  | planning (ident : String) (pl : Planning) (now : Nat) (fl : TxFail)
  | unknown (ty : String) (data : List Nat) (ip : String) (now : Nat)
  | newUser (email hash : String)
  | touchLogin (uid now : Nat)
  | editUser (uid : Nat) (email pass : String)
  deriving DecidableEq, Repr

/-- The store transition of one operation (returned values are projected
away). -/
def step (db : DB) : Op → DB
  | .checkIn ident ip now => registerFeeder ident ip now db
  | .claim ident uid ip => (claimFeeder ident uid ip db).1
  | .setName fid name => (setFeederName fid name db).1
  | .rememberDefault ident amount fl => (rememberDefaultAmount ident amount fl db).1
  | .mealFed ident d t q => recordMeal ident d t q db
  | .alert ident ty now payload => logAlert ident ty now payload db
  | .planning ident pl now fl => (recordPlanning ident pl now fl db).1
  | .unknown ty data ip now => logUnknownData ty data ip now db
  | .newUser email hash => createUser email hash db
  | .touchLogin uid now => loggedUser uid now db
  | .editUser uid email pass => updateUser uid email pass db

/-! ### Helper lemmas -/

lemma matchedCount_pos_iff {α : Type} (p : α → Bool) :
    ∀ l : List α, 1 ≤ matchedCount p l ↔ ∃ r ∈ l, p r = true := by
  intro l
  induction l with
  | nil => simp [matchedCount]
  | cons x xs ih =>
    cases hx : p x with
    | true =>
      constructor
      · intro _
        exact ⟨x, List.mem_cons_self x xs, hx⟩
      · intro _
        simp [matchedCount, hx]
    | false =>
      constructor
      · intro h
        have h2 : 1 ≤ matchedCount p xs := by simpa [matchedCount, hx] using h
        obtain ⟨r, hr, hp⟩ := ih.mp h2
        exact ⟨r, List.mem_cons_of_mem _ hr, hp⟩
      · intro h
        obtain ⟨r, hr, hp⟩ := h
        rcases List.mem_cons.mp hr with rfl | hr2
        · rw [hx] at hp
          cases hp
        · have h3 := ih.mpr ⟨r, hr2, hp⟩
          simpa [matchedCount, hx] using h3

lemma matchedCount_zero {α : Type} (p : α → Bool) (l : List α)
    (h : ∀ r ∈ l, p r = false) : matchedCount p l = 0 := by
  by_contra hne
  have h1 : 1 ≤ matchedCount p l := Nat.one_le_iff_ne_zero.mpr hne
  obtain ⟨r, hr, hp⟩ := (matchedCount_pos_iff p l).mp h1
  rw [h r hr] at hp
  cases hp

lemma updateRows_no_match {α : Type} (p : α → Bool) (f : α → α) :
    ∀ l : List α, (∀ r ∈ l, p r = false) → updateRows p f l = l := by
  intro l
  induction l with
  | nil => intro _; rfl
  | cons x xs ih =>
    intro h
    have hx := h x (List.mem_cons_self x xs)
    have hxs := ih (fun r hr => h r (List.mem_cons_of_mem _ hr))
    simp only [updateRows, List.map_cons, hx] at *
    simp [hxs, updateRows]

/-- From a positive match count, a matching row of the table. -/
lemma exists_of_matched {α : Type} {p : α → Bool} {l : List α}
    (h : decide (1 ≤ matchedCount p l) = true) : ∃ r ∈ l, p r = true :=
  (matchedCount_pos_iff p l).mp (of_decide_eq_true h)

/-! Hex-dump injectivity: `Buffer.toString('hex')` determines the bytes. -/

lemma hexChar_inj : ∀ x, x < 16 → ∀ y, y < 16 → hexChar x = hexChar y → x = y := by decide

lemma hexOf_inj : ∀ xs, (∀ b ∈ xs, b < 256) → ∀ ys, (∀ b ∈ ys, b < 256) →
    hexOf xs = hexOf ys → xs = ys := by
  intro xs
  induction xs with
  | nil =>
    intro _ ys _ h
    cases ys with
    | nil => rfl
    | cons y ys => cases h
  | cons x xs ih =>
    intro hxs ys hys h
    cases ys with
    | nil => cases h
    | cons y ys =>
      have hx : x < 256 := hxs x (List.mem_cons_self x xs)
      have hy : y < 256 := hys y (List.mem_cons_self y ys)
      have hxd : x / 16 < 16 := by omega
      have hyd : y / 16 < 16 := by omega
      have hxm : x % 16 < 16 := Nat.mod_lt _ (by norm_num)
      have hym : y % 16 < 16 := Nat.mod_lt _ (by norm_num)
      simp only [hexOf, List.cons.injEq] at h
      obtain ⟨h1, h2, h3⟩ := h
      have hdiv : x / 16 = y / 16 := hexChar_inj _ hxd _ hyd h1
      have hmod : x % 16 = y % 16 := hexChar_inj _ hxm _ hym h2
      have hxy : x = y := by omega
      have htail := ih (fun b hb => hxs b (List.mem_cons_of_mem _ hb)) ys
        (fun b hb => hys b (List.mem_cons_of_mem _ hb)) h3
      rw [hxy, htail]

/-- The quarantine noise test holds exactly on the five noise bytes. -/
lemma hex_noise_iff (data : List Nat) (h : ∀ b ∈ data, b < 256) :
    hexOf data = noiseHex ↔ data = noiseBytes := by
  constructor
  · intro he
    have hn : hexOf noiseBytes = noiseHex := by decide
    exact hexOf_inj data h noiseBytes (by decide) (by rw [he, hn])
  · intro he
    rw [he]
    decide

/-! `ORDER BY date DESC LIMIT 1` picks a strictly newest row. -/

lemma betterRow_cases (a b : PlanningRow) : betterRow a b = a ∨ betterRow a b = b := by
  unfold betterRow
  split
  · exact Or.inr rfl
  · exact Or.inl rfl

lemma betterRow_lt {a b : PlanningRow} (h : a.date < b.date) : betterRow a b = b := by
  simp [betterRow, h]

lemma foldl_betterRow_mem (l : List PlanningRow) :
    ∀ a : PlanningRow, List.foldl betterRow a l ∈ a :: l := by
  induction l with
  | nil =>
    intro a
    simp [List.foldl]
  | cons x xs ih =>
    intro a
    rw [List.foldl_cons]
    rcases List.mem_cons.mp (ih (betterRow a x)) with h1 | h1
    · rw [h1]
      rcases betterRow_cases a x with h2 | h2 <;> simp [h2]
    · simp [List.mem_cons_of_mem, h1]

lemma chooseLatest_append (l : List PlanningRow) (nr : PlanningRow)
    (h : ∀ x ∈ l, x.date < nr.date) : chooseLatest (l ++ [nr]) = some nr := by
  cases l with
  | nil => rfl
  | cons r rs =>
    show some (List.foldl betterRow r (rs ++ [nr])) = some nr
    rw [List.foldl_append]
    have hd : (List.foldl betterRow r rs).date < nr.date := h _ (foldl_betterRow_mem rs r)
    show some (betterRow (List.foldl betterRow r rs) nr) = some nr
    rw [betterRow_lt hd]

/-- A successful `recordPlanning` on a ready store is exactly the committed
store, with no error. -/
lemma recordPlanning_ok (ident : String) (pl : Planning) (now : Nat) (db : DB)
    (hready : db.ready = true) :
    recordPlanning ident pl now TxFail.ok db = (applyPlanning ident pl now db, none) := by
  unfold recordPlanning applyPlanning
  cases hm : pl.meals with
  | nil => simp [hready, Planning.mealsCount, hm, sqled]
  | cons m ms => simp [hready, Planning.mealsCount, hm]

/-- Reading back the rows `sqled` staged for a planning id rebuilds exactly
the planning's meals, in order. -/
lemma sqled_filter_map (pid : Nat) (pl : Planning) :
    ((sqled pid pl).filter (fun r => decide (r.planning = some pid))).map toMeal = pl.meals := by
  obtain ⟨ms⟩ := pl
  show ((sqled pid ⟨ms⟩).filter (fun r => decide (r.planning = some pid))).map toMeal = ms
  induction ms with
  | nil => rfl
  | cons m ms ih =>
    have h : sqled pid ⟨m :: ms⟩ =
        ⟨some pid, none, none, m.time, m.quantity, some m.enabled⟩ :: sqled pid ⟨ms⟩ := rfl
    rw [h, List.filter_cons]
    simp [toMeal, ih]

/-- The committed store of a fresh planning version, read back through
`getCurrentPlanning` with no intervening writes, yields exactly the recorded
meals (hypotheses: the store is ready, the identifier resolves to feeder
`fid`, no stored meal row already references the fresh planning id, and the
new version's date strictly exceeds every existing version's date for this
feeder). -/
lemma planning_roundtrip_aux (db : DB) (ident : String) (pl : Planning) (now : Nat) (fid : Nat)
    (hready : db.ready = true)
    (hfind : lookupFeederId ident db = some fid)
    (hmeal : ∀ m ∈ db.meals, ∀ q, m.planning = some q → q < db.nextPlanningId)
    (hdate : ∀ p ∈ db.plannings, p.feeder = some fid → p.date < now) :
    getCurrentPlanning fid (recordPlanning ident pl now TxFail.ok db).1 = Except.ok pl.meals := by
  rw [recordPlanning_ok ident pl now db hready]
  unfold applyPlanning getCurrentPlanning
  simp only [hfind, hready]
  rw [List.filter_append]
  have hnew : (List.filter (fun p => decide (p.feeder = some fid))
      [(⟨db.nextPlanningId, some fid, now⟩ : PlanningRow)]) =
      [(⟨db.nextPlanningId, some fid, now⟩ : PlanningRow)] := by simp
  rw [hnew]
  rw [chooseLatest_append _ _ (by
    intro x hx
    have hx2 := List.mem_filter.mp hx
    exact hdate x hx2.1 (of_decide_eq_true hx2.2))]
  simp only
  rw [List.filter_append]
  have hold : (db.meals.filter (fun m => decide (m.planning = some db.nextPlanningId))) = [] := by
    apply List.filter_eq_nil_iff.mpr
    intro m hm
    simp only [decide_eq_true_eq]
    intro hcontra
    have h2 := hmeal m hm db.nextPlanningId hcontra
    omega
  rw [hold]
  rw [List.nil_append, sqled_filter_map]
  simp

/-! ### Ownership invariant -/

/-- Some row of the table carries this identifier, and every row carrying it
has a non-NULL owner. -/
def ownedOn (ident : String) (l : List FeederRow) : Prop :=
  (∃ r ∈ l, r.identifier = ident) ∧ ∀ r ∈ l, r.identifier = ident → r.owner ≠ none

/-- The device with this identifier exists and is owned. -/
def ownedDevice (ident : String) (db : DB) : Prop := ownedOn ident db.feeders

lemma ownedOn_map (ident : String) (l : List FeederRow) (g : FeederRow → FeederRow)
    (hid : ∀ r, (g r).identifier = r.identifier)
    (hw : ∀ r, r.owner ≠ none → (g r).owner ≠ none)
    (h : ownedOn ident l) : ownedOn ident (l.map g) := by
  obtain ⟨⟨r, hr, hrid⟩, hall⟩ := h
  constructor
  · refine ⟨g r, List.mem_map_of_mem g hr, ?_⟩
    rw [hid r]
    exact hrid
  · intro s hs hsid
    obtain ⟨t, ht, rfl⟩ := List.mem_map.mp hs
    have htid : t.identifier = ident := by
      rw [← hid t]
      exact hsid
    exact hw t (hall t ht htid)

lemma ownedOn_append (ident : String) (l : List FeederRow) (nr : FeederRow)
    (h : ownedOn ident l) (hne : nr.identifier ≠ ident) : ownedOn ident (l ++ [nr]) := by
  obtain ⟨⟨r, hr, hrid⟩, hall⟩ := h
  constructor
  · exact ⟨r, List.mem_append_left _ hr, hrid⟩
  · intro s hs hsid
    rcases List.mem_append.mp hs with h1 | h1
    · exact hall s h1 hsid
    · rcases List.mem_singleton.mp h1 with rfl
      exact absurd hsid hne

/-- Every coordinator operation preserves devices being owned: no operation
resets or deletes an owner. -/
lemma step_preserves_owned (ident : String) (db : DB) (op : Op)
    (h : ownedDevice ident db) : ownedDevice ident (step db op) := by
  cases op with
  | checkIn i ip now =>
    show ownedOn ident (registerFeeder i ip now db).feeders
    unfold registerFeeder
    by_cases hc : 1 ≤ matchedCount (fun r : FeederRow => decide (r.identifier = i)) db.feeders
    · rw [if_pos hc]
      show ownedOn ident (updateRows _ _ db.feeders)
      exact ownedOn_map ident db.feeders _
        (fun r => by by_cases hp : decide (r.identifier = i) = true <;> simp [hp])
        (fun r ho => by by_cases hp : decide (r.identifier = i) = true <;> simp [hp, ho])
        h
    · rw [if_neg hc]
      show ownedOn ident (updateRows _ _ db.feeders ++ [_])
      have hne : i ≠ ident := by
        intro heq
        apply hc
        obtain ⟨⟨r, hr, hrid⟩, _⟩ := h
        refine (matchedCount_pos_iff _ _).mpr ⟨r, hr, ?_⟩
        rw [heq]
        simp [hrid]
      refine ownedOn_append ident _ _ ?_ (by simpa using hne)
      exact ownedOn_map ident db.feeders _
        (fun r => by by_cases hp : decide (r.identifier = i) = true <;> simp [hp])
        (fun r ho => by by_cases hp : decide (r.identifier = i) = true <;> simp [hp, ho])
        h
  | claim i uid ip =>
    show ownedOn ident (updateRows _ _ db.feeders)
    exact ownedOn_map ident db.feeders _
      (fun r => by by_cases hp : claimPred i ip r = true <;> simp [hp, setOwner])
      (fun r ho => by by_cases hp : claimPred i ip r = true <;> simp [hp, ho, setOwner])
      h
  | setName fid name =>
    show ownedOn ident (updateRows _ _ db.feeders)
    exact ownedOn_map ident db.feeders _
      (fun r => by by_cases hp : decide (r.id = fid) = true <;> simp [hp])
      (fun r ho => by by_cases hp : decide (r.id = fid) = true <;> simp [hp, ho])
      h
  | rememberDefault i amount fl =>
    show ownedOn ident ((rememberDefaultAmount i amount fl db).1).feeders
    unfold rememberDefaultAmount
    split
    · exact h
    · split
      · exact h
      · show ownedOn ident (updateRows _ _ db.feeders)
        exact ownedOn_map ident db.feeders _
          (fun r => by by_cases hp : decide (r.identifier = i) = true <;> simp [hp])
          (fun r ho => by by_cases hp : decide (r.identifier = i) = true <;> simp [hp, ho])
          h
  | mealFed i d t q =>
    show ownedOn ident (recordMeal i d t q db).feeders
    unfold recordMeal
    split <;> exact h
  | alert i ty now payload =>
    show ownedOn ident (logAlert i ty now payload db).feeders
    unfold logAlert
    split <;> exact h
  | planning i pl now fl =>
    show ownedOn ident ((recordPlanning i pl now fl db).1).feeders
    unfold recordPlanning
    split
    · exact h
    · split
      · exact h
      · split
        · exact h
        · split
          · split <;> exact h
          · split
            · exact h
            · split <;> exact h
  | unknown ty data ip now =>
    show ownedOn ident (logUnknownData ty data ip now db).feeders
    unfold logUnknownData
    split
    · exact h
    · split <;> exact h
  | newUser email hash =>
    exact h
  | touchLogin uid now =>
    exact h
  | editUser uid email pass =>
    exact h

lemma fold_preserves_owned (ident : String) :
    ∀ (ops : List Op) (db : DB), ownedDevice ident db → ownedDevice ident (ops.foldl step db) := by
  intro ops
  induction ops with
  | nil =>
    intro db h
    exact h
  | cons op rest ih =>
    intro db h
    rw [List.foldl_cons]
    exact ih _ (step_preserves_owned ident db op h)

/-- On a store where every row with the identifier is owned, `claimFeeder`
matches no row: it reports failure and rewrites nothing. -/
lemma claim_blocked (ident : String) (uid : Nat) (ip : String) (db : DB)
    (h : ∀ r ∈ db.feeders, r.identifier = ident → r.owner ≠ none) :
    claimFeeder ident uid ip db = (db, false) := by
  have hall : ∀ r ∈ db.feeders, claimPred ident ip r = false := by
    intro r hr
    unfold claimPred
    by_cases ho : r.owner = none
    · by_cases hid : r.identifier = ident
      · exact absurd ho (h r hr hid)
      · simp [hid]
    · simp [ho]
  unfold claimFeeder
  rw [updateRows_no_match _ _ _ hall, matchedCount_zero _ _ hall]
  rfl

/-- After a successful claim on a table without duplicate rows for the
identifier, the device is owned. -/
lemma claim_success_owned (ident : String) (uid : Nat) (ip : String) (db : DB)
    (huniq : ∀ r1 ∈ db.feeders, ∀ r2 ∈ db.feeders,
      r1.identifier = ident → r2.identifier = ident → r1 = r2)
    (hs : (claimFeeder ident uid ip db).2 = true) :
    ownedDevice ident (claimFeeder ident uid ip db).1 := by
  have hs2 : decide (1 ≤ matchedCount (claimPred ident ip) db.feeders) = true := hs
  obtain ⟨r, hr, hp⟩ := exists_of_matched hs2
  have hro : r.owner = none ∧ r.identifier = ident ∧ claimLike r.ip ip = true := by
    unfold claimPred at hp
    simp only [Bool.and_eq_true, decide_eq_true_eq] at hp
    exact ⟨hp.1.1, hp.1.2, hp.2⟩
  constructor
  · refine ⟨_, List.mem_map_of_mem
      (fun s => if claimPred ident ip s then setOwner uid s else s) hr, ?_⟩
    simp [hp, setOwner, hro.2.1]
  · intro s hsmem hsid
    obtain ⟨t, ht, rfl⟩ := List.mem_map.mp hsmem
    by_cases hpt : claimPred ident ip t = true
    · simp [hpt, setOwner]
    · have htid : t.identifier = ident := by
        rw [if_neg hpt] at hsid
        exact hsid
      have hteq : t = r := huniq t ht r hr htid hro.2.1
      rw [hteq] at hpt
      exact absurd hp hpt

/-! ### Concrete stores used by witnesses and counterexamples -/

/-- The spec's "time-of-day ascending" order of a returned meal list. -/
def timesAscending : List Meal → Bool
  | [] => true
  | [_] => true
  | a :: b :: rest => decide (a.time ≤ b.time) && timesAscending (b :: rest)

/-- A ready store holding one registered, unowned feeder `"feeder-42"`
(id 1) whose `ip` column was written verbatim by a check-in from
`"10.0.0.7"`. -/
def sampleDB : DB :=
  { ready := true,
    feeders := [⟨1, "feeder-42", none, "10.0.0.7", some 1, none, none⟩],
    nextFeederId := 2, users := [], nextUserId := 1, plannings := [], nextPlanningId := 1,
    meals := [], alerts := [], unknownData := [] }

/-- The store `sampleDB` with the feeder already owned by user 7. -/
def ownedDB : DB :=
  { sampleDB with feeders := [⟨1, "feeder-42", some 7, "10.0.0.7", some 1, none, none⟩] }

/-- A ready store whose feeder checked in with the colon-separated
address-and-port string an IPv4-mapped socket reports, the only shape the
`LIKE '%:ip:%'` pattern can match. -/
def colonDB : DB :=
  { sampleDB with feeders := [⟨1, "feeder-42", none, "::ffff:10.0.0.7:4001", some 1, none, none⟩] }

/-! ### The claims -/

/-- C1 counterexample: device `"feeder-42"` checks in from `"10.0.0.7"` — the
address is stored verbatim in the `ip` column — and user 7 then claims it
from that same address.  The claim reports failure and changes nothing, even
though the device exists, is unowned, and checked in from exactly the
claimant's IP: the `ip LIKE '%:10.0.0.7:%'` pattern cannot match the
verbatim-stored `"10.0.0.7"`. -/
theorem claim_after_checkin_cex :
    (claimFeeder "feeder-42" 7 "10.0.0.7" (registerFeeder "feeder-42" "10.0.0.7" 1 initDB)).2
        = false ∧
    (claimFeeder "feeder-42" 7 "10.0.0.7" (registerFeeder "feeder-42" "10.0.0.7" 1 initDB)).1
        = registerFeeder "feeder-42" "10.0.0.7" 1 initDB ∧
    (∃ r ∈ (registerFeeder "feeder-42" "10.0.0.7" 1 initDB).feeders,
      r.identifier = "feeder-42" ∧ r.owner = none ∧ r.ip = "10.0.0.7") := by
  decide

/-- C1 (amended): `claimFeeder(identifier, userId, claimantIP)` returns true
— and then some row with the identifier carries owner `userId` — exactly
when a device row has this identifier, a NULL owner, and an `ip` column
containing `:claimantIP:` as a substring; whenever it returns false the
store is unchanged.  Since a check-in overwrites the `ip` column with the
reported address verbatim, a claim succeeds only when that stored string
embeds the claimant IP between colons, not when it merely equals it. -/
theorem claim_semantics (db : DB) (ident : String) (uid : Nat) (ip : String) :
    ((claimFeeder ident uid ip db).2 = true ↔
      ∃ r ∈ db.feeders, r.identifier = ident ∧ r.owner = none ∧ claimLike r.ip ip = true) ∧
    ((claimFeeder ident uid ip db).2 = true →
      ∃ r ∈ (claimFeeder ident uid ip db).1.feeders,
        r.identifier = ident ∧ r.owner = some uid) ∧
    ((claimFeeder ident uid ip db).2 = false → (claimFeeder ident uid ip db).1 = db) := by
  refine ⟨?_, ?_, ?_⟩
  · show decide (1 ≤ matchedCount (claimPred ident ip) db.feeders) = true ↔ _
    rw [decide_eq_true_eq, matchedCount_pos_iff]
    constructor
    · rintro ⟨r, hr, hp⟩
      unfold claimPred at hp
      simp only [Bool.and_eq_true, decide_eq_true_eq] at hp
      exact ⟨r, hr, hp.1.2, hp.1.1, hp.2⟩
    · rintro ⟨r, hr, h1, h2, h3⟩
      refine ⟨r, hr, ?_⟩
      unfold claimPred
      simp [h1, h2, h3]
  · intro hs
    have hs2 : decide (1 ≤ matchedCount (claimPred ident ip) db.feeders) = true := hs
    obtain ⟨r, hr, hp⟩ := exists_of_matched hs2
    have hid : r.identifier = ident := by
      unfold claimPred at hp
      simp only [Bool.and_eq_true, decide_eq_true_eq] at hp
      exact hp.1.2
    refine ⟨_, List.mem_map_of_mem
      (fun s => if claimPred ident ip s then setOwner uid s else s) hr, ?_⟩
    simp [hp, setOwner, hid]
  · intro hf
    have hnot : ∀ r ∈ db.feeders, claimPred ident ip r = false := by
      intro r hr
      cases hq : claimPred ident ip r with
      | false => rfl
      | true =>
        have hcontra : (claimFeeder ident uid ip db).2 = true := by
          show decide _ = true
          rw [decide_eq_true_eq]
          exact (matchedCount_pos_iff _ _).mpr ⟨r, hr, hq⟩
        rw [hf] at hcontra
        cases hcontra
    show ({ db with feeders := updateRows (claimPred ident ip) (setOwner uid) db.feeders } : DB)
        = db
    rw [updateRows_no_match _ _ _ hnot]

/-- C1 witness: on the empty ready store the claim finds no matching row, so
it reports failure and leaves the store untouched. -/
theorem claim_semantics_witness :
    (claimFeeder "feeder-42" 9 "10.0.0.7" initDB).1 = initDB :=
  (claim_semantics initDB "feeder-42" 9 "10.0.0.7").2.2 (by decide)

/-- C2: once a claim for a device has succeeded (on a table without
duplicate rows for the identifier), every later claim for that identifier —
by any user, from any IP, after any interleaving of coordinator operations —
returns false and leaves the store exactly as it was, so at most one of any
number of racing claims can win and the losers cause no state change. -/
theorem claim_at_most_once (db : DB) (ident : String) (u1 : Nat) (ip1 : String)
    (huniq : ∀ r1 ∈ db.feeders, ∀ r2 ∈ db.feeders,
      r1.identifier = ident → r2.identifier = ident → r1 = r2)
    (hs : (claimFeeder ident u1 ip1 db).2 = true) :
    ∀ (ops : List Op) (u2 : Nat) (ip2 : String),
      claimFeeder ident u2 ip2 (ops.foldl step (claimFeeder ident u1 ip1 db).1) =
        (ops.foldl step (claimFeeder ident u1 ip1 db).1, false) := by
  intro ops u2 ip2
  apply claim_blocked
  exact (fold_preserves_owned ident ops _ (claim_success_owned ident u1 ip1 db huniq hs)).2

/-- C2 witness: user 7 claims the colon-format feeder successfully; after a
further check-in, user 9's claim for the same identifier fails with no state
change. -/
theorem claim_at_most_once_witness :
    claimFeeder "feeder-42" 9 "10.0.0.7"
        ([Op.checkIn "feeder-42" "10.0.0.7" 5].foldl step
          (claimFeeder "feeder-42" 7 "10.0.0.7" colonDB).1) =
      ([Op.checkIn "feeder-42" "10.0.0.7" 5].foldl step
        (claimFeeder "feeder-42" 7 "10.0.0.7" colonDB).1, false) :=
  claim_at_most_once colonDB "feeder-42" 7 "10.0.0.7" (by decide) (by decide)
    [Op.checkIn "feeder-42" "10.0.0.7" 5] 9 "10.0.0.7"

/-- C3: `recordPlanning` is atomic.  The resulting store is always either
exactly the old store or the fully committed store (header row plus all
meals); a failure of the header insert, of the meals bulk insert (when
meals are to be inserted), or of the commit rolls back to exactly the old
store; a successful run commits the full new version; and a planning with
zero meals commits right after the header insert alone, even under a
meals-insert fault. -/
theorem recordPlanning_atomic (db : DB) (ident : String) (pl : Planning) (now : Nat)
    (fl : TxFail) :
    ((recordPlanning ident pl now fl db).1 = db ∨
      (recordPlanning ident pl now fl db).1 = applyPlanning ident pl now db) ∧
    (db.ready = true →
      (fl = TxFail.atHeader ∨ (fl = TxFail.atMeals ∧ pl.meals ≠ []) ∨ fl = TxFail.atCommit) →
      (recordPlanning ident pl now fl db).1 = db) ∧
    (db.ready = true → fl = TxFail.ok →
      recordPlanning ident pl now fl db = (applyPlanning ident pl now db, none)) ∧
    (db.ready = true → pl.meals = [] → fl = TxFail.atMeals →
      recordPlanning ident pl now fl db = (applyPlanning ident pl now db, none)) := by
  cases hready : db.ready with
  | false =>
    refine ⟨Or.inl ?_, ?_, ?_, ?_⟩
    · simp [recordPlanning, hready]
    · simp [hready]
    · simp [hready]
    · simp [hready]
  | true =>
    cases fl with
    | ok =>
      refine ⟨Or.inr ?_, ?_, ?_, ?_⟩
      · rw [recordPlanning_ok ident pl now db hready]
      · intro _ h
        rcases h with h | ⟨h, _⟩ | h <;> cases h
      · intro _ _
        exact recordPlanning_ok ident pl now db hready
      · intro _ _ h
        cases h
    | atBegin =>
      refine ⟨Or.inl ?_, ?_, ?_, ?_⟩
      · simp [recordPlanning, hready]
      · intro _ h
        rcases h with h | ⟨h, _⟩ | h <;> cases h
      · intro _ h
        cases h
      · intro _ _ h
        cases h
    | atHeader =>
      refine ⟨Or.inl ?_, ?_, ?_, ?_⟩
      · simp [recordPlanning, hready]
      · intro _ _
        simp [recordPlanning, hready]
      · intro _ h
        cases h
      · intro _ _ h
        cases h
    | atMeals =>
      cases hm : pl.meals with
      | nil =>
        refine ⟨Or.inr ?_, ?_, ?_, ?_⟩
        · simp [recordPlanning, applyPlanning, hready, Planning.mealsCount, hm, sqled]
        · intro _ h
          rcases h with h | ⟨_, h⟩ | h
          · cases h
          · exact absurd rfl h
          · cases h
        · intro _ h
          cases h
        · intro _ _ _
          simp [recordPlanning, applyPlanning, hready, Planning.mealsCount, hm, sqled]
      | cons m ms =>
        refine ⟨Or.inl ?_, ?_, ?_, ?_⟩
        · simp [recordPlanning, hready, Planning.mealsCount, hm]
        · intro _ _
          simp [recordPlanning, hready, Planning.mealsCount, hm]
        · intro _ h
          cases h
        · intro _ hc _
          cases hc
    | atCommit =>
      have h1 : (recordPlanning ident pl now TxFail.atCommit db).1 = db := by
        cases hm : pl.meals with
        | nil => simp [recordPlanning, hready, Planning.mealsCount, hm]
        | cons m ms => simp [recordPlanning, hready, Planning.mealsCount, hm]
      refine ⟨Or.inl h1, ?_, ?_, ?_⟩
      · intro _ _
        exact h1
      · intro _ h
        cases h
      · intro _ _ h
        cases h

/-- C3 witness: on the sample store a meals-insert failure rolls the
one-meal planning back to exactly the previous store, and a fault-free run
commits the full version. -/
theorem recordPlanning_atomic_witness :
    (recordPlanning "feeder-42" ⟨[⟨480, 20, true⟩]⟩ 2 TxFail.atMeals sampleDB).1 = sampleDB :=
  (recordPlanning_atomic sampleDB "feeder-42" ⟨[⟨480, 20, true⟩]⟩ 2 TxFail.atMeals).2.1
    (by decide) (Or.inr (Or.inl ⟨rfl, by decide⟩))

/-- C4: for a registered feeder and any planning, `recordPlanning` followed
by `getCurrentPlanning` for the same device with no intervening writes
returns exactly the recorded meals — same time, quantity and enabled flag,
in the same order (hypotheses: ready store, the identifier resolves to the
queried feeder id, stored meal rows only reference already-allocated
planning ids, and the new version's date strictly exceeds the dates of the
device's previous versions). -/
theorem planning_roundtrip (db : DB) (ident : String) (pl : Planning) (now : Nat) (fid : Nat)
    (hready : db.ready = true)
    (hfind : lookupFeederId ident db = some fid)
    (hmeal : ∀ m ∈ db.meals, ∀ q, m.planning = some q → q < db.nextPlanningId)
    (hdate : ∀ p ∈ db.plannings, p.feeder = some fid → p.date < now) :
    getCurrentPlanning fid (recordPlanning ident pl now TxFail.ok db).1 = Except.ok pl.meals :=
  planning_roundtrip_aux db ident pl now fid hready hfind hmeal hdate

/-- C4 witness: the spec scenario — record the single meal 08:00 / 20 /
enabled for `"feeder-42"` and read back exactly that one meal. -/
theorem planning_roundtrip_witness :
    getCurrentPlanning 1
        (recordPlanning "feeder-42" ⟨[⟨480, 20, true⟩]⟩ 2 TxFail.ok sampleDB).1 =
      Except.ok [⟨480, 20, true⟩] :=
  planning_roundtrip sampleDB "feeder-42" ⟨[⟨480, 20, true⟩]⟩ 2 1
    (by decide) (by decide) (by decide) (by decide)

/-- C5 counterexample: with the readiness flag down, `recordPlanning`
returns silently — no error — and performs no durable write, so a failure to
perform the write is not signalled to the caller. -/
theorem recordPlanning_notReady_silent_cex :
    recordPlanning "feeder-42" ⟨[⟨480, 20, true⟩]⟩ 3 TxFail.ok notReadyDB =
      (notReadyDB, none) := by
  decide

/-- C5 (amended): every failure inside the transaction — begin, header
insert, meals bulk insert (when meals are inserted), or commit — is
propagated to the caller as an error; but when the store is not ready the
call returns silently, with no error and no write. -/
theorem recordPlanning_error_propagation (db : DB) (ident : String) (pl : Planning)
    (now : Nat) (fl : TxFail) :
    (db.ready = true → fl ≠ TxFail.ok → (fl = TxFail.atMeals → pl.meals ≠ []) →
      (recordPlanning ident pl now fl db).2 ≠ none) ∧
    (db.ready = false → recordPlanning ident pl now fl db = (db, none)) := by
  constructor
  · intro hready hne hnm
    cases fl with
    | ok => exact absurd rfl hne
    | atBegin => simp [recordPlanning, hready]
    | atHeader => simp [recordPlanning, hready]
    | atMeals =>
      cases hmm : pl.meals with
      | nil => exact absurd hmm (hnm rfl)
      | cons m ms => simp [recordPlanning, hready, Planning.mealsCount, hmm]
    | atCommit =>
      cases hmm : pl.meals with
      | nil => simp [recordPlanning, hready, Planning.mealsCount, hmm]
      | cons m ms => simp [recordPlanning, hready, Planning.mealsCount, hmm]
  · intro hready
    simp [recordPlanning, hready]

/-- C5 witness: a meals-insert failure on the ready sample store reaches the
caller as an error. -/
theorem recordPlanning_error_propagation_witness :
    (recordPlanning "feeder-42" ⟨[⟨480, 20, true⟩]⟩ 3 TxFail.atMeals sampleDB).2 ≠ none :=
  (recordPlanning_error_propagation sampleDB "feeder-42" ⟨[⟨480, 20, true⟩]⟩ 3
      TxFail.atMeals).1 (by decide) (by decide) (fun _ => by decide)

/-- C6 counterexample: meals recorded out of time order come back in exactly
the recorded order — the meal query of `getCurrentPlanning` has no
`ORDER BY` — so the returned planning is not ascending by time-of-day. -/
theorem planning_order_cex :
    getCurrentPlanning 1
        (recordPlanning "feeder-42" ⟨[⟨600, 10, true⟩, ⟨480, 20, true⟩]⟩ 2 TxFail.ok
          sampleDB).1 =
      Except.ok [⟨600, 10, true⟩, ⟨480, 20, true⟩] ∧
    timesAscending [⟨600, 10, true⟩, ⟨480, 20, true⟩] = false := by
  decide

/-- C6 (amended): the meals of the planning returned by
`getCurrentPlanning` appear in the order in which `recordPlanning` stored
them — the client-supplied order — and are therefore ascending by
time-of-day exactly when the recorded planning already was. -/
theorem planning_order_preserved (db : DB) (ident : String) (pl : Planning) (now : Nat)
    (fid : Nat)
    (hready : db.ready = true)
    (hfind : lookupFeederId ident db = some fid)
    (hmeal : ∀ m ∈ db.meals, ∀ q, m.planning = some q → q < db.nextPlanningId)
    (hdate : ∀ p ∈ db.plannings, p.feeder = some fid → p.date < now) :
    ∀ ms, getCurrentPlanning fid (recordPlanning ident pl now TxFail.ok db).1 = Except.ok ms →
      timesAscending ms = timesAscending pl.meals := by
  intro ms h
  have h2 := planning_roundtrip_aux db ident pl now fid hready hfind hmeal hdate
  rw [h] at h2
  rw [Except.ok.injEq] at h2
  rw [h2]

/-- C6 witness: the out-of-order two-meal planning reads back with its
recorded (non-ascending) order. -/
theorem planning_order_preserved_witness :
    timesAscending [(⟨600, 10, true⟩ : Meal), ⟨480, 20, true⟩] =
      timesAscending (Planning.mk [⟨600, 10, true⟩, ⟨480, 20, true⟩]).meals :=
  planning_order_preserved sampleDB "feeder-42" ⟨[⟨600, 10, true⟩, ⟨480, 20, true⟩]⟩ 2 1
    (by decide) (by decide) (by decide) (by decide)
    [⟨600, 10, true⟩, ⟨480, 20, true⟩] (by decide)

/-- C7: `checkFeederAssociation` hands back a device record only when the
caller is its current owner, and in the two non-owner situations — the
device row is absent, or it exists but is not owned by the caller — the
result is the same `none` for any pair of such stores, so the caller cannot
distinguish them. -/
theorem checkAssociation_no_leak :
    (∀ (db : DB) (fid uid : Nat) (r : FeederRow),
      checkFeederAssociation fid uid db = some r → r.owner = some uid ∧ r.id = fid) ∧
    (∀ (db1 db2 : DB) (fid uid : Nat),
      (∀ r ∈ db1.feeders, r.id ≠ fid) →
      (∀ r ∈ db2.feeders, r.id = fid → r.owner ≠ some uid) →
      checkFeederAssociation fid uid db1 = none ∧
        checkFeederAssociation fid uid db2 = none ∧
        checkFeederAssociation fid uid db1 = checkFeederAssociation fid uid db2) := by
  constructor
  · intro db fid uid r h
    have hr : r ∈ db.feeders.filter
        (fun s => decide (s.owner = some uid) && decide (s.id = fid)) :=
      List.mem_of_mem_head? (Option.mem_def.mpr h)
    have hp := (List.mem_filter.mp hr).2
    simp only [Bool.and_eq_true, decide_eq_true_eq] at hp
    exact hp
  · intro db1 db2 fid uid h1 h2
    have e1 : checkFeederAssociation fid uid db1 = none := by
      unfold checkFeederAssociation
      have hf : db1.feeders.filter
          (fun s => decide (s.owner = some uid) && decide (s.id = fid)) = [] := by
        apply List.filter_eq_nil_iff.mpr
        intro a ha
        simp only [Bool.and_eq_true, decide_eq_true_eq, not_and]
        intro _ hid
        exact absurd hid (h1 a ha)
      rw [hf]
      rfl
    have e2 : checkFeederAssociation fid uid db2 = none := by
      unfold checkFeederAssociation
      have hf : db2.feeders.filter
          (fun s => decide (s.owner = some uid) && decide (s.id = fid)) = [] := by
        apply List.filter_eq_nil_iff.mpr
        intro a ha
        simp only [Bool.and_eq_true, decide_eq_true_eq, not_and]
        intro ho hid
        exact absurd ho (h2 a ha hid)
      rw [hf]
      rfl
    exact ⟨e1, e2, by rw [e1, e2]⟩

/-- C7 witness: user 9 gets the same `none` from a store where the device
does not exist and from one where it is owned by user 7. -/
theorem checkAssociation_no_leak_witness :
    checkFeederAssociation 1 9 initDB = none ∧
      checkFeederAssociation 1 9 ownedDB = none ∧
      checkFeederAssociation 1 9 initDB = checkFeederAssociation 1 9 ownedDB :=
  checkAssociation_no_leak.2 initDB ownedDB 1 9 (by decide) (by decide)

/-- C8: on a ready store, a payload whose hex dump matches the known noise
signature leaves the store untouched — nothing is persisted — and every
other payload appends exactly one quarantine record carrying the timestamp,
the source IP, the raw payload, and the type tag truncated to 64
characters. -/
theorem logUnknownData_filter (db : DB) (ty : String) (data : List Nat) (ip : String)
    (now : Nat) (hready : db.ready = true) :
    (hexOf data = noiseHex → logUnknownData ty data ip now db = db) ∧
    (hexOf data ≠ noiseHex →
      logUnknownData ty data ip now db =
        { db with unknownData := db.unknownData ++ [⟨now, ty.take 64, ip, data⟩] }) := by
  constructor
  · intro hn
    simp [logUnknownData, hready, hn]
  · intro hn
    simp [logUnknownData, hready, hn]

/-- C8 witness: the spec scenario — `logUnknownData("ping", noise bytes,
"1.2.3.4")` persists nothing, while a different payload appends one record
with the tag `"ping"` kept whole (it is shorter than 64 characters). -/
theorem logUnknownData_filter_witness :
    logUnknownData "ping" noiseBytes "1.2.3.4" 9 initDB = initDB ∧
      logUnknownData "ping" [1, 2] "1.2.3.4" 9 initDB =
        { initDB with unknownData := initDB.unknownData ++ [⟨9, "ping".take 64, "1.2.3.4", [1, 2]⟩] } :=
  ⟨(logUnknownData_filter initDB "ping" noiseBytes "1.2.3.4" 9 (by decide)).1 (by decide),
    (logUnknownData_filter initDB "ping" [1, 2] "1.2.3.4" 9 (by decide)).2 (by decide)⟩

/-- C9 counterexample: on a ready store, a failing `default_value` update
makes `rememberDefaultAmount` re-throw the error to the caller instead of
swallowing it. -/
theorem rememberDefault_raises_cex :
    (rememberDefaultAmount "feeder-42" 10 true sampleDB).2 =
      some "default_value update failed" := by
  decide

/-- C9 (amended): `rememberDefaultAmount` raises an error exactly when the
store is ready and the update itself fails — a not-ready store is silently
ignored, but an update failure is re-thrown rather than suppressed. -/
theorem rememberDefault_error_behavior (db : DB) (ident : String) (amount : Nat)
    (updateFails : Bool) :
    (rememberDefaultAmount ident amount updateFails db).2.isSome =
      (db.ready && updateFails) := by
  cases hready : db.ready <;> cases hf : updateFails <;>
    simp [rememberDefaultAmount, hready, hf]

/-- C10: on a ready store, `logUnknownData` drops a payload (leaves the
store unchanged) exactly when the payload's entire byte content is the five
bytes `9d a1 14 41 4c`; a payload that differs in any way — including one
that merely contains the pattern among other bytes — is persisted, with the
type tag being exactly the first 64 characters of the given tag. -/
theorem noise_exact_match (db : DB) (ty : String) (data : List Nat) (ip : String) (now : Nat)
    (hready : db.ready = true) (hbytes : ∀ b ∈ data, b < 256) :
    ((logUnknownData ty data ip now db = db) ↔ data = noiseBytes) ∧
    (data ≠ noiseBytes →
      logUnknownData ty data ip now db =
        { db with unknownData := db.unknownData ++ [⟨now, ty.take 64, ip, data⟩] }) := by
  have hiff := hex_noise_iff data hbytes
  have happend : hexOf data ≠ noiseHex →
      logUnknownData ty data ip now db =
        { db with unknownData := db.unknownData ++ [⟨now, ty.take 64, ip, data⟩] } := by
    intro hn
    simp [logUnknownData, hready, hn]
  constructor
  · constructor
    · intro heq
      by_contra hne
      have hhex : hexOf data ≠ noiseHex := fun hh => hne (hiff.mp hh)
      rw [happend hhex] at heq
      have hlen := congrArg (fun s : DB => s.unknownData.length) heq
      simp only [List.length_append, List.length_cons, List.length_nil] at hlen
      omega
    · intro hd
      have hhex : hexOf data = noiseHex := hiff.mpr hd
      simp [logUnknownData, hready, hhex]
  · intro hne
    exact happend (fun hh => hne (hiff.mp hh))

/-- C10 witness: a proper prefix of the noise pattern is persisted whole,
with its short tag untruncated. -/
theorem noise_exact_match_witness :
    logUnknownData "ping" [0x9d, 0xa1, 0x14, 0x41] "1.2.3.4" 9 initDB =
      { initDB with
          unknownData := initDB.unknownData ++
            [⟨9, "ping".take 64, "1.2.3.4", [0x9d, 0xa1, 0x14, 0x41]⟩] } :=
  (noise_exact_match initDB "ping" [0x9d, 0xa1, 0x14, 0x41] "1.2.3.4" 9
      (by decide) (by decide)).2 (by decide)

end Aln
